import Mathlib

/-!
# DiscreteZOO-sage: the nauty binding and its benchmark driver

A shallow embedding of `src/scala-nauty/binding.cpp` (`Java_Binding_sparseNauty`)
and `src/tools/benchmarking.c` (`main`).

Both programs are glue around the nauty library.  The library's headers
(`nauty.h`, `nausparse.h`, `gtools.h`) and its code are not part of the
repository, so everything the glue takes from them is collected in the
structure `Nauty` and every statement below is made for an arbitrary value of
it: the canonical-labelling engine `sparsenauty`, the sparse6 writer `sgtos6`
and the default options block.  Three facts about the library are written into
the model, because the behaviour of the glue depends on them:
* the allocation forms of the headers (`SG_DECL`, `SG_ALLOC`, `DYNALLOC1`,
  `DYNALLSTAT`) allocate a block with the requested number of cells, none of
  them assigned;
* the offsets `sg.v` are `size_t` cells (64 bits), the other cells are `int`;
* the library reads the graph it is handed without any check, so a call on a
  graph that is not `Readable` has no defined behaviour, and `sgtos6` returns a
  pointer to a text buffer the library owns and keeps for its next call.

A C array is a `Block`: a list of cells, each holding an integer or nothing
yet (allocated and never assigned).  The values of `jint` and `int` cells are
kept as they are (no arithmetic in the glue can overflow: the only arithmetic is
`3*i` and `x-1`, `x+1` on values below 48); a value stored in a `size_t` cell is
reduced modulo `2^64`.  A behaviour the C standard leaves undefined is `none`.
-/

namespace DiscreteZOO

/-! ## Data model -/

/-- Modelled from the spec: the failure kinds of section 7 (error handling).
The sources declare no error type and contain no failing path; the type exists
so that "the call fails with kind k" can be stated at all. -/
inductive ErrorKind where
  | MalformedGraph
  | MalformedEncoding
  | Cancelled
  | InvalidConfiguration
  deriving DecidableEq, Repr

/-- A block of C memory holding integers: `some x` is a cell holding `x`, `none`
a cell whose value is indeterminate (allocated, never assigned). -/
abbrev Block := List (Option Int)

/-- Reading `a[i]`: defined only for an assigned cell inside the block. -/
def readAt (a : Block) (i : Int) : Option Int :=
  if 0 ≤ i then (a[i.toNat]?).join else none

/-- Writing `a[i] = x`: defined only inside the block. -/
def writeAt (a : Block) (i : Int) (x : Int) : Option Block :=
  if 0 ≤ i ∧ i.toNat < a.length then some (a.set i.toNat (some x)) else none

/-- The value an integer has once it is stored in a `size_t` cell (64 bits): a
negative `-k` becomes `2^64 - k`. -/
def size_t (x : Int) : Int :=
  x % 2 ^ 64

/-- The fields of nauty's `sparsegraph` that the glue code assigns: `sg.nv`,
`sg.nde` and the three blocks `sg.v` (cells of type `size_t`), `sg.d` and `sg.e`
(cells of type `int`). -/
structure sparsegraph where
  nde : Nat
  v : Block
  nv : Nat
  d : Block
  e : Block
  deriving DecidableEq, Repr

/-- The cells of the neighbour block of vertex `u`: positions `v[u] + j` of `e` for
`0 ≤ j < d[u]`; a position outside `e`, or an unassigned cell, gives `none`. -/
def blockOf (g : sparsegraph) (u : Nat) : Block :=
  match readAt g.v u, readAt g.d u with
  | some o, some d => (List.range d.toNat).map fun j => readAt g.e (o + (j : Int))
  | _, _ => []

/-- The cell holds the number of a vertex of a graph with `n` vertices. -/
def IsVertex (n : Nat) (c : Option Int) : Prop :=
  c.isSome ∧ 0 ≤ c.getD (-1) ∧ c.getD (-1) < n

/-- What the library takes for granted of a graph it is handed: for every vertex
`i < nv` the cells `v[i]` and `d[i]` exist, and every cell of its neighbour block
exists and holds a vertex number (the engine uses the entries of `e` as indices
into arrays of `nv` cells).  On a graph that is not readable the library reads
outside the arrays it was given. -/
def Readable (g : sparsegraph) : Prop :=
  ∀ i, i < g.nv →
    readAt g.v i ≠ none ∧ readAt g.d i ≠ none ∧ ∀ c ∈ blockOf g i, IsVertex g.nv c

instance (n : Nat) (c : Option Int) : Decidable (IsVertex n c) := by
  unfold IsVertex; infer_instance

instance (g : sparsegraph) : Decidable (Readable g) := by
  unfold Readable; infer_instance

/-- The text buffer `gcode` of gtools, into which `sgtos6` writes and whose address
it returns: `owned` while the library may use it (not yet allocated, or allocated
by the library and still live), `freed` once the block it points to has been
released although the library still holds the pointer and its size. -/
inductive Gcode where
  | owned
  | freed
  deriving DecidableEq, Repr

/-- The options block of nauty.  The four named fields are the ones the glue
code writes; every other field of the C struct is kept, untouched, in
`others`. -/
structure optionblk (ρ : Type) where
  getcanon : Bool
  mininvarlevel : Int
  maxinvarlevel : Int
  invararg : Int
  others : ρ

/-- What one call of `sparsenauty` writes through its pointer arguments:
`lab`, `ptn`, `orbits`, `*stats` and the canonical graph `*canong`. -/
structure EngineOut (σ : Type) where
  lab : Block
  ptn : Block
  orbits : Block
  stats : σ
  canong : sparsegraph

/-- The part of the nauty library the glue code uses.
* `DEFAULTOPTIONS_SPARSEGRAPH`: the initial value of a static options block;
* `sparsenauty g lab ptn orbits options`: the engine; it reads the graph, the
  work arrays and the options, and writes the work arrays, `stats` and the
  canonical graph.  The graph and the options block are passed by pointer and are
  input only: the library does not write to them;
* `sgtos6 g`: the sparse6 text of a sparse graph.

Both functions say what the library does where its behaviour is defined; the
callers below consult them only on a `Readable` graph and, for `sgtos6`, only
while the text buffer is `owned`. -/
structure Nauty : Type 1 where
  OtherOptions : Type
  statsblk : Type
  DEFAULTOPTIONS_SPARSEGRAPH : optionblk OtherOptions
  sparsenauty : sparsegraph → Block → Block → Block →
    optionblk OtherOptions → EngineOut statsblk
  sgtos6 : sparsegraph → String

/-- A fresh block of `n` cells (`malloc`): its contents are indeterminate. -/
def ALLOCS (n : Nat) : Block :=
  List.replicate n none

/-- `DYNALLOC1(int,name,name_sz,sz,msg)`: the block is replaced by a fresh one of
`sz` cells when `sz` exceeds its current size and is kept as it is otherwise. -/
def DYNALLOC1 (name : Block) (sz : Nat) : Block :=
  if sz > name.length then ALLOCS sz else name

/-- `SG_DECL(sg)`: an empty sparse graph, no block allocated. -/
def SG_DECL : sparsegraph :=
  { nde := 0, v := [], nv := 0, d := [], e := [] }

/-- `SG_ALLOC(sg,nlen,ndelen,msg)`: `DYNALLOC1` on `sg.v` and `sg.d` for `nlen`
cells and on `sg.e` for `ndelen` cells. -/
def SG_ALLOC (sg : sparsegraph) (nlen ndelen : Nat) : sparsegraph :=
  { sg with
    v := DYNALLOC1 sg.v nlen
    d := DYNALLOC1 sg.d nlen
    e := DYNALLOC1 sg.e ndelen }

/-- The variables of `Java_Binding_sparseNauty` with static storage: the
options block (`static DEFAULTOPTIONS_SPARSEGRAPH(options)`) and the four
`DYNALLSTAT` work arrays.  They keep their value from one call to the next. -/
structure Statics (ρ : Type) where
  options : optionblk ρ
  lab : Block
  ptn : Block
  orbits : Block
  nmap : Block

/-- The static variables when the library is loaded: default options, no work
array allocated (`lab_sz = 0`, ...). -/
def Statics.init (N : Nauty) : Statics N.OtherOptions :=
  { options := N.DEFAULTOPTIONS_SPARSEGRAPH, lab := [], ptn := [], orbits := [], nmap := [] }

/-- The arguments of one call `sparsenauty(&sg, lab, ptn, orbits, &options, &stats, &cg)`. -/
structure EngineCall (ρ : Type) where
  g : sparsegraph
  lab : Block
  ptn : Block
  orbits : Block
  options : optionblk ρ

/-- Everything observable of one call of the binding: the calls it made to the
engine, what it returns (`none`: the call ran into undefined behaviour and
returns nothing that can be relied on), and the static variables and the text
buffer of the library as it leaves them (of interest only when the call
returned). -/
structure Invocation (ρ : Type) where
  result : Option (Except ErrorKind String)
  engineCalls : List (EngineCall ρ)
  statics : Statics ρ
  gcode : Gcode

/-! ## `Java_Binding_sparseNauty` (binding.cpp, lines 21-73) -/

/-- `GetIntArrayElements`: the cells of a Java `int[]`, all of them assigned. -/
def GetIntArrayElements (array : List Int) : Block :=
  array.map some

/-- Line 66: `for (i = 0; i < order; ++i) sg.v[i] = indices[i];` where
`indices[i]` is a `jint` and `sg.v[i]` a `size_t`. -/
def copyIndices (indices : Block) (order : Nat) (v : Block) : Block :=
  (List.range order).foldl (fun v i => v.set i ((indices.getD i none).map size_t)) v

/-- The binding, statement by statement, called with its static variables `st`
and the library's text buffer in state `gcode`.  The C function has no failing
path: it ends in `return result;` or in undefined behaviour.  `nauty_check`
(line 53) compares constants fixed when the library was compiled and touches none
of the variables. -/
def Java_Binding_sparseNauty (N : Nauty) (st : Statics N.OtherOptions) (gcode : Gcode)
    (arrayIndices arrayDegrees arrayNeighbours : List Int)
    (mininvarlevel maxinvarlevel invararg : Int) : Invocation N.OtherOptions :=
  -- lines 31-35
  let order := arrayIndices.length
  let directedEdgesNum := arrayNeighbours.length
  let indices := GetIntArrayElements arrayIndices
  let degrees := GetIntArrayElements arrayDegrees
  let neighbours := GetIntArrayElements arrayNeighbours
  -- lines 45-46
  let sg := SG_DECL
  -- lines 48-51
  let options := { st.options with getcanon := true }
  let options := { options with mininvarlevel := mininvarlevel }
  let options := { options with maxinvarlevel := maxinvarlevel }
  let options := { options with invararg := invararg }
  -- lines 55-59
  let lab := DYNALLOC1 st.lab order
  let ptn := DYNALLOC1 st.ptn order
  let orbits := DYNALLOC1 st.orbits order
  let nmap := DYNALLOC1 st.nmap order
  let sg := SG_ALLOC sg order directedEdgesNum
  -- lines 61-66
  let sg := { sg with nv := order }
  let sg := { sg with nde := directedEdgesNum }
  let sg := { sg with e := neighbours }
  let sg := { sg with d := degrees }
  let sg := { sg with v := copyIndices indices order sg.v }
  -- line 68: the engine is called, whatever the graph
  let call : EngineCall N.OtherOptions :=
    { g := sg, lab := lab, ptn := ptn, orbits := orbits, options := options }
  if Readable sg then
    let out := N.sparsenauty sg lab ptn orbits options
    let statics : Statics N.OtherOptions :=
      { options := options, lab := out.lab, ptn := out.ptn, orbits := out.orbits, nmap := nmap }
    match gcode with
    | Gcode.owned =>
      -- line 69: the text of `sg` (not of `cg`), written into the library's buffer
      let sparse6string := N.sgtos6 sg
      -- line 70: `NewStringUTF` copies the text into a Java string
      let result := sparse6string
      -- lines 71-72: `free(sparse6string)` releases the library's buffer
      { result := some (Except.ok result), engineCalls := [call], statics := statics,
        gcode := Gcode.freed }
    | Gcode.freed =>
      -- line 69: `sgtos6` writes into, or releases again, a block already released
      { result := none, engineCalls := [call], statics := statics, gcode := Gcode.freed }
  else
    -- line 68: the engine reads outside the arrays it was handed
    { result := none, engineCalls := [call]
      statics := { options := options, lab := lab, ptn := ptn, orbits := orbits, nmap := nmap }
      gcode := gcode }

/-- The arguments of one call of the binding. -/
structure Request where
  arrayIndices : List Int
  arrayDegrees : List Int
  arrayNeighbours : List Int
  mininvarlevel : Int
  maxinvarlevel : Int
  invararg : Int
  deriving DecidableEq, Repr

/-- One call of the binding on a request. -/
def serve (N : Nauty) (st : Statics N.OtherOptions) (gcode : Gcode) (r : Request) :
    Invocation N.OtherOptions :=
  Java_Binding_sparseNauty N st gcode r.arrayIndices r.arrayDegrees r.arrayNeighbours
    r.mininvarlevel r.maxinvarlevel r.invararg

/-- What a sequence of calls returns, oldest first, in a process that starts with
the static variables `st` and the text buffer in state `gcode`.  Once a call has
run into undefined behaviour nothing can be said of the calls after it either. -/
def results (N : Nauty) (st : Statics N.OtherOptions) (gcode : Gcode) :
    List Request → List (Option (Except ErrorKind String))
  | [] => []
  | r :: rest =>
    match (serve N st gcode r).result with
    | none => none :: rest.map fun _ => none
    | some x => some x :: results N (serve N st gcode r).statics (serve N st gcode r).gcode rest

/-! ## The benchmark driver: `main` (benchmarking.c) -/

/-- Line 35: `int edges[][2]`, vertices numbered from 1. -/
def edges : List (Int × Int) :=
  [(3,4), (11,5), (11,14), (1,16), (13,16), (15,16), (1,10), (12,6), (14,15),
   (12,8), (2,10), (3,5), (2,4), (7,9), (3,14), (15,6), (13,5), (4,7), (1,8),
   (12,10), (2,9), (11,9), (7,8), (13,6)]

/-- One assignment `sg.e[indices[x]] = y`: the vertex `x` whose cursor is used,
the value `indices[x]` of the cursor at that moment, and the value `y` stored. -/
structure EWrite where
  vertex : Int
  slot : Int
  value : Int
  deriving DecidableEq, Repr

/-- The variables the two loops of `main` work on: the graph, the cursor array
`int indices[n]`, and (a record of the run, not a C variable) the assignments
made to `sg.e` so far, oldest first. -/
structure FillState where
  sg : sparsegraph
  indices : Block
  writes : List EWrite
  deriving DecidableEq, Repr

/-- Lines 30-34: `sg.v[i] = 3*i; sg.d[i] = 3; indices[i] = 3*i;` for `i < n`
(`3*i` is not negative and below `2^64`: the `size_t` cell holds it unchanged). -/
def initLoop (n : Nat) (st : FillState) : FillState :=
  (List.range n).foldl
    (fun st i =>
      { st with
        sg := { st.sg with
                v := st.sg.v.set i (some (3 * (i : Int)))
                d := st.sg.d.set i (some 3) }
        indices := st.indices.set i (some (3 * (i : Int))) })
    st

/-- Lines 38-43, the body of the second loop for one edge.  `none` when a cell is
read or written outside its block, or read before it was assigned. -/
def fillEdge (st : FillState) (edge : Int × Int) : Option FillState := do
  let e := edge.1 - 1
  let f := edge.2 - 1
  let ie ← readAt st.indices e
  let se ← writeAt st.sg.e ie f
  let indices ← writeAt st.indices e (ie + 1)
  let jf ← readAt indices f
  let se ← writeAt se jf e
  let indices ← writeAt indices f (jf + 1)
  pure { sg := { st.sg with e := se }
         indices := indices
         writes := st.writes ++ [⟨e, ie, f⟩, ⟨f, jf, e⟩] }

/-- Lines 37-44: the second loop, over the rows of `edges` in order. -/
def fillLoop : List (Int × Int) → FillState → Option FillState
  | [], st => some st
  | edge :: rest, st => (fillEdge st edge).bind (fillLoop rest)

/-- Lines 18-44 of `main`: allocation and the two loops that build the graph. -/
def buildGraph : Option FillState :=
  -- lines 18, 26-29
  let n := 16
  let sg := SG_ALLOC SG_DECL n (3 * n)
  let sg := { sg with nv := n }
  let sg := { sg with nde := 3 * n }
  let indices := ALLOCS n
  -- lines 30-44
  fillLoop edges (initLoop n { sg := sg, indices := indices, writes := [] })

/-- What a run of `main` does that can be seen from outside: the call it makes to
the engine, the line it prints, and the final state of its second loop. -/
structure MainRun (ρ : Type) where
  engineCall : EngineCall ρ
  printed : String
  filled : FillState

/-- The benchmark driver; `none` when the run reads or writes a cell it may not,
or hands the library a graph it cannot read. -/
def main (N : Nauty) : Option (MainRun N.OtherOptions) :=
  -- lines 10, 16
  let options := { N.DEFAULTOPTIONS_SPARSEGRAPH with getcanon := true }
  -- lines 18-25
  let n := 16
  let lab := DYNALLOC1 [] n
  let ptn := DYNALLOC1 [] n
  let orbits := DYNALLOC1 [] n
  let _map := DYNALLOC1 [] n
  -- lines 26-44
  buildGraph.bind fun st =>
    -- lines 45-46
    if Readable st.sg then
      let _out := N.sparsenauty st.sg lab ptn orbits options
      some
        { engineCall :=
            { g := st.sg, lab := lab, ptn := ptn, orbits := orbits, options := options }
          printed := N.sgtos6 st.sg ++ "\n"
          filled := st }
    else none

/-! ## Vocabulary of the statements -/

/-- The sparse graph whose blocks are the three Java arrays, cell for cell: the
graph as the caller describes it. -/
def marshalled (arrayIndices arrayDegrees arrayNeighbours : List Int) : sparsegraph :=
  { nde := arrayNeighbours.length
    v := arrayIndices.map some
    nv := arrayIndices.length
    d := arrayDegrees.map some
    e := arrayNeighbours.map some }

/-- The sparse graph whose blocks `d` and `e` are the arrays `degrees` and
`neighbours` cell for cell and whose `v[i]` is `indices[i]` stored as a `size_t`. -/
def passed (arrayIndices arrayDegrees arrayNeighbours : List Int) : sparsegraph :=
  { nde := arrayNeighbours.length
    v := arrayIndices.map fun x => some (size_t x)
    nv := arrayIndices.length
    d := arrayDegrees.map some
    e := arrayNeighbours.map some }

/-- Spec, section 3: `offsets[i+1] = offsets[i] + degree[i]`, read for every `i`
with `i + 1 < order`; the three cells it names must exist. -/
def OffsetsConsistent (g : sparsegraph) : Prop :=
  ∀ i, i < g.nv - 1 →
    readAt g.v ((i : Int) + 1) ≠ none ∧
    readAt g.v ((i : Int) + 1) =
      (readAt g.v i).bind fun o => (readAt g.d i).map fun d => o + d

/-- Spec, section 3: every entry in `neighbours` is a valid vertex index
`< order`. -/
def NeighboursInRange (g : sparsegraph) : Prop :=
  ∀ c ∈ g.e, ∃ x : Int, c = some x ∧ 0 ≤ x ∧ x < g.nv

/-- Spec, section 3: the graph is undirected: `w` is in the block of `u` exactly
when `u` is in the block of `w`. -/
def Symmetric (g : sparsegraph) : Prop :=
  ∀ u, u < g.nv → ∀ w, w < g.nv →
    (some (w : Int) ∈ blockOf g u ↔ some (u : Int) ∈ blockOf g w)

/-- Spec, section 6: the preconditions of `canonicalize` on the graph, that is the
SparseGraph invariants of section 3 (`order ≥ 0` holds of every `Nat`). -/
def SpecPreconditions (g : sparsegraph) : Prop :=
  OffsetsConsistent g ∧ NeighboursInRange g ∧ Symmetric g

instance (g : sparsegraph) : Decidable (OffsetsConsistent g) := by
  unfold OffsetsConsistent; infer_instance

instance (g : sparsegraph) : Decidable (NeighboursInRange g) :=
  decidable_of_iff (∀ c ∈ g.e, c.isSome ∧ 0 ≤ c.getD (-1) ∧ c.getD (-1) < g.nv) (by
    unfold NeighboursInRange
    constructor
    · intro h c hc
      obtain ⟨h1, h2, h3⟩ := h c hc
      cases c with
      | none => simp at h1
      | some x => exact ⟨x, rfl, by simpa using h2, by simpa using h3⟩
    · intro h c hc
      obtain ⟨x, rfl, h2, h3⟩ := h c hc
      exact ⟨rfl, by simpa using h2, by simpa using h3⟩)

instance (g : sparsegraph) : Decidable (Symmetric g) := by
  unfold Symmetric; infer_instance

instance (g : sparsegraph) : Decidable (SpecPreconditions g) := by
  unfold SpecPreconditions; infer_instance

/-- Every read of a neighbour block stays inside the arrays: `d` has a cell for each
of the `nv` vertices, `e` has exactly `nde` cells, and each position `v[i] + j`
with `i < nv` and `0 ≤ j < d[i]` satisfies `0 ≤ v[i] + j < nde`. -/
def BlocksInside (g : sparsegraph) : Prop :=
  g.nv ≤ g.d.length ∧ g.e.length = g.nde ∧
  ∀ i, i < g.nv → ∀ o d, readAt g.v i = some o → readAt g.d i = some d →
    ∀ j : Nat, (j : Int) < d → 0 ≤ o + j ∧ o + j < g.nde

/-- Spec, section 8: `h` is `g` with its vertices renamed by the permutation `p`
(vertex `i` of `g` is vertex `p[i]` of `h`): `p` lists each of `0..nv-1` once, and
`w` is a neighbour of `u` in `g` exactly when `p[w]` is a neighbour of `p[u]` in
`h`. -/
def IsRelabelling (g h : sparsegraph) (p : List Nat) : Prop :=
  h.nv = g.nv ∧ p.length = g.nv ∧ p.Nodup ∧ (∀ x ∈ p, x < g.nv) ∧
  ∀ u, u < g.nv → ∀ w, w < g.nv →
    (some (w : Int) ∈ blockOf g u ↔
      some ((p.getD w 0 : Nat) : Int) ∈ blockOf h (p.getD u 0))

instance (g h : sparsegraph) (p : List Nat) : Decidable (IsRelabelling g h p) := by
  unfold IsRelabelling; infer_instance

/-- The state in which the second loop of `main` ends, written out: the graph
handed to the engine, the cursors, and the 48 assignments to `sg.e` in the order
they are made.  `buildGraph_eq` below shows that this is what `buildGraph`
computes. -/
def filled : FillState :=
  { sg :=
      { nde := 48
        v := [
          some 0, some 3, some 6, some 9, some 12, some 15, some 18, some 21, some 24, some 27,
          some 30, some 33, some 36, some 39, some 42, some 45]
        nv := 16
        d := [
          some 3, some 3, some 3, some 3, some 3, some 3, some 3, some 3, some 3, some 3,
          some 3, some 3, some 3, some 3, some 3, some 3]
        e := [
          some 15, some 9, some 7, some 9, some 3, some 8, some 3, some 4, some 13, some 2,
          some 1, some 6, some 10, some 2, some 12, some 11, some 14, some 12, some 8,
          some 3, some 7, some 11, some 0, some 6, some 6, some 1, some 10, some 0, some 1,
          some 11, some 4, some 13, some 8, some 5, some 7, some 9, some 15, some 4,
          some 5, some 10, some 14, some 2, some 15, some 13, some 5, some 0, some 12,
          some 14] }
    indices := [
      some 3, some 6, some 9, some 12, some 15, some 18, some 21, some 24, some 27,
      some 30, some 33, some 36, some 39, some 42, some 45, some 48]
    writes := [
      ⟨2, 6, 3⟩, ⟨3, 9, 2⟩, ⟨10, 30, 4⟩, ⟨4, 12, 10⟩, ⟨10, 31, 13⟩, ⟨13, 39, 10⟩,
      ⟨0, 0, 15⟩, ⟨15, 45, 0⟩, ⟨12, 36, 15⟩, ⟨15, 46, 12⟩, ⟨14, 42, 15⟩, ⟨15, 47, 14⟩,
      ⟨0, 1, 9⟩, ⟨9, 27, 0⟩, ⟨11, 33, 5⟩, ⟨5, 15, 11⟩, ⟨13, 40, 14⟩, ⟨14, 43, 13⟩,
      ⟨11, 34, 7⟩, ⟨7, 21, 11⟩, ⟨1, 3, 9⟩, ⟨9, 28, 1⟩, ⟨2, 7, 4⟩, ⟨4, 13, 2⟩, ⟨1, 4, 3⟩,
      ⟨3, 10, 1⟩, ⟨6, 18, 8⟩, ⟨8, 24, 6⟩, ⟨2, 8, 13⟩, ⟨13, 41, 2⟩, ⟨14, 44, 5⟩,
      ⟨5, 16, 14⟩, ⟨12, 37, 4⟩, ⟨4, 14, 12⟩, ⟨3, 11, 6⟩, ⟨6, 19, 3⟩, ⟨0, 2, 7⟩, ⟨7, 22, 0⟩,
      ⟨11, 35, 9⟩, ⟨9, 29, 11⟩, ⟨1, 5, 8⟩, ⟨8, 25, 1⟩, ⟨10, 32, 8⟩, ⟨8, 26, 10⟩,
      ⟨6, 20, 7⟩, ⟨7, 23, 6⟩, ⟨12, 38, 5⟩, ⟨5, 17, 12⟩] }

/-! ## Lemmas on the binding -/

theorem foldl_set_length (f : Nat → Option Int) (is : List Nat) (v : Block) :
    (is.foldl (fun v i => v.set i (f i)) v).length = v.length := by
  induction is generalizing v with
  | nil => rfl
  | cons i is ih => simp [List.foldl_cons, ih]

theorem foldl_set_getElem? (f : Nat → Option Int) (k : Nat) (v : Block) (j : Nat) :
    ((List.range k).foldl (fun v i => v.set i (f i)) v)[j]? =
      if j < k ∧ j < v.length then some (f j) else v[j]? := by
  induction k with
  | zero => simp
  | succ k ih =>
    rw [List.range_succ, List.foldl_append]
    simp only [List.foldl_cons, List.foldl_nil]
    rw [List.getElem?_set, foldl_set_length, ih]
    by_cases hjk : k = j
    · subst hjk
      by_cases hl : k < v.length
      · simp [hl]
      · simp [hl]
        omega
    · by_cases hl : j < v.length
      · have : (j < k + 1) ↔ (j < k) := by omega
        simp [hjk, hl, this]
      · simp [hjk, hl]

/-- The loop of line 66 turns a block of `order` cells into a copy of `indices`
in which every value has been stored as a `size_t`. -/
theorem copyIndices_eq (indices v : Block) (h : v.length = indices.length) :
    copyIndices indices indices.length v = indices.map (Option.map size_t) := by
  apply List.ext_getElem?
  intro j
  unfold copyIndices
  rw [foldl_set_getElem?]
  by_cases hj : j < indices.length
  · simp [hj, h, List.getD_eq_getElem?_getD, List.getElem?_eq_getElem hj]
  · have h1 : v[j]? = none := List.getElem?_eq_none (by omega)
    have h2 : indices[j]? = none := List.getElem?_eq_none (by omega)
    simp [hj, h1, h2]

theorem DYNALLOC1_nil_length (n : Nat) : (DYNALLOC1 [] n).length = n := by
  unfold DYNALLOC1 ALLOCS
  by_cases h : n > 0
  · simp [h]
  · have : n = 0 := by omega
    subst this
    simp

/-- The graph the binding has built when it reaches line 68. -/
theorem built_graph (arrayIndices arrayDegrees arrayNeighbours : List Int) :
    ({ nde := arrayNeighbours.length
       v := copyIndices (GetIntArrayElements arrayIndices) arrayIndices.length
              (DYNALLOC1 [] arrayIndices.length)
       nv := arrayIndices.length
       d := GetIntArrayElements arrayDegrees
       e := GetIntArrayElements arrayNeighbours } : sparsegraph) =
      passed arrayIndices arrayDegrees arrayNeighbours := by
  have h := copyIndices_eq (GetIntArrayElements arrayIndices) (DYNALLOC1 [] arrayIndices.length)
    (by simp [DYNALLOC1_nil_length, GetIntArrayElements])
  simp only [GetIntArrayElements, List.length_map] at h
  simp [passed, GetIntArrayElements, h]

/-- The one call the binding makes to the engine, whatever the graph and whatever
the state of the text buffer. -/
theorem engineCalls_eq (N : Nauty) (st : Statics N.OtherOptions) (gcode : Gcode)
    (arrayIndices arrayDegrees arrayNeighbours : List Int)
    (mininvarlevel maxinvarlevel invararg : Int) :
    (Java_Binding_sparseNauty N st gcode arrayIndices arrayDegrees arrayNeighbours
      mininvarlevel maxinvarlevel invararg).engineCalls =
      [{ g := passed arrayIndices arrayDegrees arrayNeighbours
         lab := DYNALLOC1 st.lab arrayIndices.length
         ptn := DYNALLOC1 st.ptn arrayIndices.length
         orbits := DYNALLOC1 st.orbits arrayIndices.length
         options := { getcanon := true
                      mininvarlevel := mininvarlevel
                      maxinvarlevel := maxinvarlevel
                      invararg := invararg
                      others := st.options.others } }] := by
  have h := built_graph arrayIndices arrayDegrees arrayNeighbours
  simp only [Java_Binding_sparseNauty, SG_ALLOC, SG_DECL]
  rw [h]
  split
  · cases gcode <;> rfl
  · rfl

/-- What the binding returns while the text buffer of the library is intact. -/
theorem result_owned (N : Nauty) (st : Statics N.OtherOptions)
    (arrayIndices arrayDegrees arrayNeighbours : List Int)
    (mininvarlevel maxinvarlevel invararg : Int) :
    (Java_Binding_sparseNauty N st Gcode.owned arrayIndices arrayDegrees arrayNeighbours
      mininvarlevel maxinvarlevel invararg).result =
      if Readable (passed arrayIndices arrayDegrees arrayNeighbours) then
        some (Except.ok (N.sgtos6 (passed arrayIndices arrayDegrees arrayNeighbours)))
      else none := by
  have h := built_graph arrayIndices arrayDegrees arrayNeighbours
  simp only [Java_Binding_sparseNauty, SG_ALLOC, SG_DECL]
  rw [h]
  split <;> rfl

/-- A call made after the text buffer has been released returns nothing. -/
theorem result_freed (N : Nauty) (st : Statics N.OtherOptions)
    (arrayIndices arrayDegrees arrayNeighbours : List Int)
    (mininvarlevel maxinvarlevel invararg : Int) :
    (Java_Binding_sparseNauty N st Gcode.freed arrayIndices arrayDegrees arrayNeighbours
      mininvarlevel maxinvarlevel invararg).result = none := by
  simp only [Java_Binding_sparseNauty]
  split <;> rfl

/-- A call that returns leaves the text buffer released. -/
theorem gcode_after (N : Nauty) (st : Statics N.OtherOptions) (gcode : Gcode)
    (arrayIndices arrayDegrees arrayNeighbours : List Int)
    (mininvarlevel maxinvarlevel invararg : Int)
    (h : (Java_Binding_sparseNauty N st gcode arrayIndices arrayDegrees arrayNeighbours
      mininvarlevel maxinvarlevel invararg).result ≠ none) :
    (Java_Binding_sparseNauty N st gcode arrayIndices arrayDegrees arrayNeighbours
      mininvarlevel maxinvarlevel invararg).gcode = Gcode.freed := by
  simp only [Java_Binding_sparseNauty] at h ⊢
  split
  · cases gcode <;> rfl
  · rename_i hr
    simp [hr] at h

/-- Offsets that a `size_t` holds unchanged give the graph the caller described. -/
theorem passed_eq_marshalled (arrayIndices arrayDegrees arrayNeighbours : List Int)
    (h : ∀ x ∈ arrayIndices, 0 ≤ x ∧ x < 2 ^ 64) :
    passed arrayIndices arrayDegrees arrayNeighbours =
      marshalled arrayIndices arrayDegrees arrayNeighbours := by
  have hv : (arrayIndices.map fun x => some (size_t x)) = arrayIndices.map some := by
    apply List.map_congr_left
    intro x hx
    have := h x hx
    simp only [size_t]
    rw [Int.emod_eq_of_lt this.1 this.2]
  simp [passed, marshalled, hv]

/-- Once the text buffer is released, every call of a sequence returns nothing. -/
theorem results_freed (N : Nauty) (requests : List Request) (st : Statics N.OtherOptions) :
    results N st Gcode.freed requests = requests.map fun _ => none := by
  cases requests with
  | nil => rfl
  | cons r rest =>
    have h : (serve N st Gcode.freed r).result = none := result_freed N st _ _ _ _ _ _
    simp only [results, h, List.map_cons]

/-! ## The string the binding returns -/

/-- C2.  While the library's text buffer is intact (a first call), the string
returned by `Java_Binding_sparseNauty` on a graph the library can read is the
sparse6 text of the input graph in its given labelling (`sgtos6(&sg)`, line 69):
the graph of the three arrays, which is the graph the caller described whenever
the offsets are values a `size_t` holds unchanged.  On any other graph the call
returns nothing that can be relied on.  The canonical graph `cg` that the engine
fills in is never read, so replacing the engine by any other leaves what is
returned unchanged. -/
theorem returns_encoding_of_input_labelling (N : Nauty) (st : Statics N.OtherOptions)
    (arrayIndices arrayDegrees arrayNeighbours : List Int)
    (mininvarlevel maxinvarlevel invararg : Int) :
    (Java_Binding_sparseNauty N st Gcode.owned arrayIndices arrayDegrees arrayNeighbours
        mininvarlevel maxinvarlevel invararg).result =
      (if Readable (passed arrayIndices arrayDegrees arrayNeighbours) then
        some (Except.ok (N.sgtos6 (passed arrayIndices arrayDegrees arrayNeighbours)))
      else none) ∧
    ((∀ x ∈ arrayIndices, 0 ≤ x ∧ x < 2 ^ 64) →
      passed arrayIndices arrayDegrees arrayNeighbours =
        marshalled arrayIndices arrayDegrees arrayNeighbours) ∧
    ∀ engine : sparsegraph → Block → Block → Block →
        optionblk N.OtherOptions → EngineOut N.statsblk,
      (Java_Binding_sparseNauty { N with sparsenauty := engine } st Gcode.owned
          arrayIndices arrayDegrees arrayNeighbours
          mininvarlevel maxinvarlevel invararg).result =
        (Java_Binding_sparseNauty N st Gcode.owned arrayIndices arrayDegrees arrayNeighbours
          mininvarlevel maxinvarlevel invararg).result := by
  refine ⟨result_owned N st _ _ _ _ _ _, passed_eq_marshalled _ _ _, fun engine => ?_⟩
  rw [result_owned, result_owned]

/-- C1.  The path on three vertices with centre 1 (`0-1, 1-2`) and the same path
relabelled by the transposition of 0 and 1 (centre 0: `1-0, 0-2`) are both valid
inputs, and the binding returns for each the sparse6 text of that very labelling.
The two strings therefore differ for every sparse6 writer that can be decoded
(the round-trip law of the spec, section 4.7): the returned string is not
invariant under relabelling. -/
theorem relabelled_path_gets_its_own_encoding (N : Nauty) (st st' : Statics N.OtherOptions)
    (mininvarlevel maxinvarlevel invararg : Int) :
    SpecPreconditions (marshalled [0, 1, 3] [1, 2, 1] [1, 0, 2, 1]) ∧
    SpecPreconditions (marshalled [0, 2, 3] [2, 1, 1] [1, 2, 0, 0]) ∧
    IsRelabelling (marshalled [0, 1, 3] [1, 2, 1] [1, 0, 2, 1])
      (marshalled [0, 2, 3] [2, 1, 1] [1, 2, 0, 0]) [1, 0, 2] ∧
    (Java_Binding_sparseNauty N st Gcode.owned [0, 1, 3] [1, 2, 1] [1, 0, 2, 1]
        mininvarlevel maxinvarlevel invararg).result =
      some (Except.ok (N.sgtos6 (marshalled [0, 1, 3] [1, 2, 1] [1, 0, 2, 1]))) ∧
    (Java_Binding_sparseNauty N st' Gcode.owned [0, 2, 3] [2, 1, 1] [1, 2, 0, 0]
        mininvarlevel maxinvarlevel invararg).result =
      some (Except.ok (N.sgtos6 (marshalled [0, 2, 3] [2, 1, 1] [1, 2, 0, 0]))) ∧
    ∀ decode : String → sparsegraph,
      decode (N.sgtos6 (marshalled [0, 1, 3] [1, 2, 1] [1, 0, 2, 1])) =
        marshalled [0, 1, 3] [1, 2, 1] [1, 0, 2, 1] →
      decode (N.sgtos6 (marshalled [0, 2, 3] [2, 1, 1] [1, 2, 0, 0])) =
        marshalled [0, 2, 3] [2, 1, 1] [1, 2, 0, 0] →
      (Java_Binding_sparseNauty N st Gcode.owned [0, 1, 3] [1, 2, 1] [1, 0, 2, 1]
          mininvarlevel maxinvarlevel invararg).result ≠
        (Java_Binding_sparseNauty N st' Gcode.owned [0, 2, 3] [2, 1, 1] [1, 2, 0, 0]
          mininvarlevel maxinvarlevel invararg).result := by
  have e1 : passed [0, 1, 3] [1, 2, 1] [1, 0, 2, 1] =
      marshalled [0, 1, 3] [1, 2, 1] [1, 0, 2, 1] := by decide
  have e2 : passed [0, 2, 3] [2, 1, 1] [1, 2, 0, 0] =
      marshalled [0, 2, 3] [2, 1, 1] [1, 2, 0, 0] := by decide
  have r1 : (Java_Binding_sparseNauty N st Gcode.owned [0, 1, 3] [1, 2, 1] [1, 0, 2, 1]
        mininvarlevel maxinvarlevel invararg).result =
      some (Except.ok (N.sgtos6 (marshalled [0, 1, 3] [1, 2, 1] [1, 0, 2, 1]))) := by
    rw [result_owned, e1, if_pos (by decide)]
  have r2 : (Java_Binding_sparseNauty N st' Gcode.owned [0, 2, 3] [2, 1, 1] [1, 2, 0, 0]
        mininvarlevel maxinvarlevel invararg).result =
      some (Except.ok (N.sgtos6 (marshalled [0, 2, 3] [2, 1, 1] [1, 2, 0, 0]))) := by
    rw [result_owned, e2, if_pos (by decide)]
  refine ⟨by decide, by decide, by decide, r1, r2, ?_⟩
  intro decode h1 h2 h
  rw [r1, r2] at h
  have hs : N.sgtos6 (marshalled [0, 1, 3] [1, 2, 1] [1, 0, 2, 1]) =
      N.sgtos6 (marshalled [0, 2, 3] [2, 1, 1] [1, 2, 0, 0]) := Except.ok.inj (Option.some.inj h)
  have hg : marshalled [0, 1, 3] [1, 2, 1] [1, 0, 2, 1] =
      marshalled [0, 2, 3] [2, 1, 1] [1, 2, 0, 0] := by
    rw [← h1, ← h2, hs]
  exact absurd hg (by decide)

/-! ## Rejection of bad input -/

/-- C3, the claim refuted at two concrete inputs.
* `indices = [0,1]`, `degrees = [1,1]`, `neighbours = [1,2]`: the neighbours array
  holds the index `2 = order`, so the input violates the SparseGraph invariants;
  yet for every library, every state of the static variables and of the text
  buffer, the engine has been invoked on that very graph, and the call does not
  end in the failure `MalformedGraph`.
* `indices = [0,1]`, `degrees = [1,0]`, `neighbours = [1]`: vertex 1 is a neighbour
  of vertex 0 but not the other way round, so the adjacency is not symmetric; yet
  the engine has been invoked on that graph and a first call returns the sparse6
  text of it. -/
theorem malformed_graph_is_accepted :
    ((2 : Int) ∈ [(1 : Int), 2] ∧ ¬ SpecPreconditions (marshalled [0, 1] [1, 1] [1, 2]) ∧
      ∀ (N : Nauty) (st : Statics N.OtherOptions) (gcode : Gcode),
        ((Java_Binding_sparseNauty N st gcode [0, 1] [1, 1] [1, 2] 0 1 0).engineCalls.map
          fun c => c.g) = [marshalled [0, 1] [1, 1] [1, 2]] ∧
        (Java_Binding_sparseNauty N st gcode [0, 1] [1, 1] [1, 2] 0 1 0).result ≠
          some (Except.error ErrorKind.MalformedGraph)) ∧
    (¬ Symmetric (marshalled [0, 1] [1, 0] [1]) ∧
      ¬ SpecPreconditions (marshalled [0, 1] [1, 0] [1]) ∧
      ∀ (N : Nauty) (st : Statics N.OtherOptions),
        ((Java_Binding_sparseNauty N st Gcode.owned [0, 1] [1, 0] [1] 0 1 0).engineCalls.map
          fun c => c.g) = [marshalled [0, 1] [1, 0] [1]] ∧
        (Java_Binding_sparseNauty N st Gcode.owned [0, 1] [1, 0] [1] 0 1 0).result =
          some (Except.ok (N.sgtos6 (marshalled [0, 1] [1, 0] [1])))) := by
  have e1 : passed [0, 1] [1, 1] [1, 2] = marshalled [0, 1] [1, 1] [1, 2] := by decide
  have e2 : passed [0, 1] [1, 0] [1] = marshalled [0, 1] [1, 0] [1] := by decide
  refine ⟨⟨by decide, by decide, fun N st gcode => ⟨?_, ?_⟩⟩,
    ⟨by decide, by decide, fun N st => ⟨?_, ?_⟩⟩⟩
  · rw [engineCalls_eq, e1]
    rfl
  · cases gcode
    · rw [result_owned, if_neg (by decide)]
      exact fun h => by cases h
    · rw [result_freed]
      exact fun h => by cases h
  · rw [engineCalls_eq, e2]
    rfl
  · rw [result_owned, e2, if_pos (by decide)]

/-- C3, as amended.  The binding validates nothing and has no failing path: for
every input, whatever its arrays and whatever the state of the static variables
and of the text buffer, it invokes the engine exactly once, on the graph whose
`d` and `e` are the arrays `degrees` and `neighbours` as they were given and whose
`v[i]` is `indices[i]` stored as a `size_t`; and the call never ends in a failure
of any kind, `MalformedGraph` included. -/
theorem no_input_is_rejected (N : Nauty) (st : Statics N.OtherOptions) (gcode : Gcode)
    (arrayIndices arrayDegrees arrayNeighbours : List Int)
    (mininvarlevel maxinvarlevel invararg : Int) :
    ((Java_Binding_sparseNauty N st gcode arrayIndices arrayDegrees arrayNeighbours
        mininvarlevel maxinvarlevel invararg).engineCalls.map fun c => c.g) =
      [passed arrayIndices arrayDegrees arrayNeighbours] ∧
    (passed arrayIndices arrayDegrees arrayNeighbours).v =
      (arrayIndices.map fun x => some (size_t x)) ∧
    (passed arrayIndices arrayDegrees arrayNeighbours).d = arrayDegrees.map some ∧
    (passed arrayIndices arrayDegrees arrayNeighbours).e = arrayNeighbours.map some ∧
    ∀ k, (Java_Binding_sparseNauty N st gcode arrayIndices arrayDegrees arrayNeighbours
        mininvarlevel maxinvarlevel invararg).result ≠ some (Except.error k) := by
  refine ⟨by rw [engineCalls_eq]; rfl, rfl, rfl, rfl, fun k => ?_⟩
  cases gcode
  · rw [result_owned]
    split <;> exact fun h => by cases h
  · rw [result_freed]
    exact fun h => by cases h

/-- C4, the claim refuted at a concrete input.  On the single edge `0-1`, with
`mininvarlevel = 2` and `maxinvarlevel = -1` (a negative level, and
`mininvarlevel > maxinvarlevel`), for every library and every state of the static
variables a first call does not fail with `InvalidConfiguration`: it returns a
string and has handed both values to the engine. -/
theorem invalid_configuration_is_accepted :
    ((-1 : Int) < 0 ∧ (2 : Int) > -1) ∧
    ∀ (N : Nauty) (st : Statics N.OtherOptions),
      (Java_Binding_sparseNauty N st Gcode.owned [0, 1] [1, 1] [1, 0] 2 (-1) 0).result ≠
        some (Except.error ErrorKind.InvalidConfiguration) ∧
      (∃ s, (Java_Binding_sparseNauty N st Gcode.owned [0, 1] [1, 1] [1, 0] 2 (-1) 0).result =
        some (Except.ok s)) ∧
      ((Java_Binding_sparseNauty N st Gcode.owned [0, 1] [1, 1] [1, 0] 2 (-1) 0).engineCalls.map
        fun c => (c.options.mininvarlevel, c.options.maxinvarlevel)) = [(2, -1)] := by
  refine ⟨by decide, fun N st => ?_⟩
  rw [result_owned, engineCalls_eq, if_pos (by decide)]
  exact ⟨(fun h => by cases h), ⟨_, rfl⟩, rfl⟩

/-- C4, as amended.  The binding does not validate the invariant parameters: for
every call, whatever the three integers, the call does not end in a failure (in
particular not in `InvalidConfiguration`), the options block handed to the engine
carries the three integers unchanged, and a first call on a graph the library can
read returns a string. -/
theorem invariant_parameters_are_passed_unchecked (N : Nauty) (st : Statics N.OtherOptions)
    (gcode : Gcode) (arrayIndices arrayDegrees arrayNeighbours : List Int)
    (mininvarlevel maxinvarlevel invararg : Int) :
    (∀ k, (Java_Binding_sparseNauty N st gcode arrayIndices arrayDegrees arrayNeighbours
        mininvarlevel maxinvarlevel invararg).result ≠ some (Except.error k)) ∧
    ((Java_Binding_sparseNauty N st gcode arrayIndices arrayDegrees arrayNeighbours
        mininvarlevel maxinvarlevel invararg).engineCalls.map fun c =>
          (c.options.mininvarlevel, c.options.maxinvarlevel, c.options.invararg)) =
      [(mininvarlevel, maxinvarlevel, invararg)] ∧
    (Readable (passed arrayIndices arrayDegrees arrayNeighbours) →
      ∃ s, (Java_Binding_sparseNauty N st Gcode.owned arrayIndices arrayDegrees arrayNeighbours
        mininvarlevel maxinvarlevel invararg).result = some (Except.ok s)) := by
  refine ⟨fun k => ?_, by rw [engineCalls_eq]; rfl, fun hr => ?_⟩
  · cases gcode
    · rw [result_owned]
      split <;> exact fun h => by cases h
    · rw [result_freed]
      exact fun h => by cases h
  · rw [result_owned, if_pos hr]
    exact ⟨_, rfl⟩

/-! ## Hyperproperties of the returned string -/

/-- C6.  A sequence of calls in one process, started with the static variables
as loaded and the text buffer intact.  Every call after the first returns
nothing that can be relied on: the first call to return has released the
library's text buffer (line 71), and line 69 of the next call runs `sgtos6` on it.
So the same request on the single edge `0-1` returns the sparse6 text of the
graph when it is the first call and nothing when it is the second.  The part of
the statement on the options block does hold: in every call, whatever came
before, the engine receives `getcanon = TRUE` and the three integers of that
call. -/
theorem calls_after_the_first_are_undefined (N : Nauty) (r : Request) (rest : List Request) :
    (∀ x ∈ (results N (Statics.init N) Gcode.owned (r :: rest)).tail, x = none) ∧
    results N (Statics.init N) Gcode.owned
        [⟨[0, 1], [1, 1], [1, 0], 0, 1, 0⟩, ⟨[0, 1], [1, 1], [1, 0], 0, 1, 0⟩] =
      [some (Except.ok (N.sgtos6 (marshalled [0, 1] [1, 1] [1, 0]))), none] ∧
    ∀ (st : Statics N.OtherOptions) (gcode : Gcode),
      ((serve N st gcode r).engineCalls.map fun c =>
        (c.options.getcanon, c.options.mininvarlevel, c.options.maxinvarlevel,
          c.options.invararg)) =
        [(true, r.mininvarlevel, r.maxinvarlevel, r.invararg)] := by
  refine ⟨?_, ?_, fun st gcode => by rw [serve, engineCalls_eq]; rfl⟩
  · intro x hx
    simp only [results] at hx
    split at hx
    · simp only [List.tail_cons, List.mem_map] at hx
      obtain ⟨_, _, h⟩ := hx
      exact h.symm
    · rename_i y hy
      have hg : (serve N (Statics.init N) Gcode.owned r).gcode = Gcode.freed :=
        gcode_after N _ _ _ _ _ _ _ _ (by rw [serve] at hy; rw [hy]; exact fun h => by cases h)
      rw [hg, results_freed] at hx
      simp only [List.tail_cons, List.mem_map] at hx
      obtain ⟨_, _, h⟩ := hx
      exact h.symm
  · have e : passed [0, 1] [1, 1] [1, 0] = marshalled [0, 1] [1, 1] [1, 0] := by decide
    have h1 : (serve N (Statics.init N) Gcode.owned ⟨[0, 1], [1, 1], [1, 0], 0, 1, 0⟩).result =
        some (Except.ok (N.sgtos6 (marshalled [0, 1] [1, 1] [1, 0]))) := by
      rw [serve, result_owned, e, if_pos (by decide)]
    have hg : (serve N (Statics.init N) Gcode.owned ⟨[0, 1], [1, 1], [1, 0], 0, 1, 0⟩).gcode =
        Gcode.freed :=
      gcode_after N _ _ _ _ _ _ _ _ (by
        rw [serve] at h1; rw [h1]; exact fun h => by cases h)
    simp only [results, h1, hg]
    have h2 := results_freed N [(⟨[0, 1], [1, 1], [1, 0], 0, 1, 0⟩ : Request)]
      (serve N (Statics.init N) Gcode.owned ⟨[0, 1], [1, 1], [1, 0], 0, 1, 0⟩).statics
    simp only [results] at h2
    rw [h2]
    rfl

/-! ## Marshalling -/

/-- C7, the claim refuted at a concrete input.  With `indices = [-1]`,
`degrees = [0]`, `neighbours = []`, for every library and in every state, the graph
handed to the engine has `v[0] = 2^64 - 1`, not `indices[0] = -1`: line 66 stores a
`jint` in a `size_t` cell. -/
theorem negative_offset_is_altered :
    (18446744073709551615 : Int) ≠ -1 ∧
    ∀ (N : Nauty) (st : Statics N.OtherOptions) (gcode : Gcode),
      ((Java_Binding_sparseNauty N st gcode [-1] [0] [] 0 1 0).engineCalls.map
        fun c => c.g.v) = [[some 18446744073709551615]] := by
  refine ⟨by decide, fun N st gcode => ?_⟩
  rw [engineCalls_eq]
  show [(passed [-1] [0] []).v] = [[some 18446744073709551615]]
  decide

/-- C7, as amended.  Every call makes exactly one call to the engine; the graph it
passes has `nv = length(indices)`, `nde = length(neighbours)`; its blocks `d` and
`e` are the arrays `degrees` and `neighbours` cell for cell (same length, same
order, same values); its block `v` has the length and the order of `indices` and
`v[i]` is `indices[i]` stored as a `size_t`, that is `indices[i] mod 2^64`, which
is `indices[i]` itself whenever `0 ≤ indices[i] < 2^64` (every non-negative
`jint`); the options it passes have `getcanon = TRUE` and the three integer
arguments. -/
theorem marshalling_is_faithful (N : Nauty) (st : Statics N.OtherOptions) (gcode : Gcode)
    (arrayIndices arrayDegrees arrayNeighbours : List Int)
    (mininvarlevel maxinvarlevel invararg : Int) :
    ∃ call,
      (Java_Binding_sparseNauty N st gcode arrayIndices arrayDegrees arrayNeighbours
        mininvarlevel maxinvarlevel invararg).engineCalls = [call] ∧
      call.g.nv = arrayIndices.length ∧
      call.g.nde = arrayNeighbours.length ∧
      call.g.v = (arrayIndices.map fun x => some (x % 2 ^ 64)) ∧
      call.g.d = arrayDegrees.map some ∧
      call.g.e = arrayNeighbours.map some ∧
      (∀ i : Nat, call.g.v[i]? = (arrayIndices[i]?).map fun x => some (x % 2 ^ 64)) ∧
      (∀ (i : Nat) (x : Int), arrayIndices[i]? = some x → 0 ≤ x → x < 2 ^ 64 →
        call.g.v[i]? = some (some x)) ∧
      (∀ i : Nat, call.g.d[i]? = (arrayDegrees[i]?).map some) ∧
      (∀ k : Nat, call.g.e[k]? = (arrayNeighbours[k]?).map some) ∧
      call.options.getcanon = true ∧
      call.options.mininvarlevel = mininvarlevel ∧
      call.options.maxinvarlevel = maxinvarlevel ∧
      call.options.invararg = invararg := by
  refine ⟨_, engineCalls_eq N st gcode _ _ _ _ _ _, rfl, rfl, rfl, rfl, rfl, ?_, ?_, ?_, ?_,
    rfl, rfl, rfl, rfl⟩
  · intro i
    simp [passed, size_t]
  · intro i x hx h0 h1
    simp only [passed, size_t, List.getElem?_map, hx, Option.map_some']
    rw [Int.emod_eq_of_lt h0 h1]
  · intro i
    simp [passed]
  · intro i
    simp [passed]

/-! ## Bounds of the neighbour blocks -/

theorem readAt_map_some (l : List Int) (i : Nat) :
    readAt (l.map some) (i : Int) = l[i]? := by
  unfold readAt
  by_cases h : i < l.length
  · simp [h]
  · have h1 : l[i]? = none := List.getElem?_eq_none (by omega)
    simp [h1]

/-- What `OffsetsConsistent` says of a marshalled graph, in terms of the arrays. -/
theorem offsets_step (arrayIndices arrayDegrees arrayNeighbours : List Int)
    (h : OffsetsConsistent (marshalled arrayIndices arrayDegrees arrayNeighbours))
    (hlen : arrayIndices.length ≤ arrayDegrees.length)
    (i : Nat) (hi : i + 1 < arrayIndices.length) :
    arrayIndices.getD (i + 1) 0 = arrayIndices.getD i 0 + arrayDegrees.getD i 0 := by
  have h1 := (h i (by simp only [marshalled]; omega)).2
  have e1 : ((i : Int) + 1) = ((i + 1 : Nat) : Int) := by push_cast; rfl
  simp only [marshalled] at h1
  rw [e1, readAt_map_some, readAt_map_some, readAt_map_some] at h1
  have a1 : arrayIndices[i + 1]? = some (arrayIndices.getD (i + 1) 0) := by
    rw [List.getD_eq_getElem?_getD, List.getElem?_eq_getElem hi]; rfl
  have a2 : arrayIndices[i]? = some (arrayIndices.getD i 0) := by
    rw [List.getD_eq_getElem?_getD, List.getElem?_eq_getElem (by omega : i < arrayIndices.length)]
    rfl
  have a3 : arrayDegrees[i]? = some (arrayDegrees.getD i 0) := by
    rw [List.getD_eq_getElem?_getD, List.getElem?_eq_getElem (by omega : i < arrayDegrees.length)]
    rfl
  rw [a1, a2, a3] at h1
  simpa using h1

/-- Offsets that obey the recurrence with non-negative degrees never decrease. -/
theorem offsets_mono (arrayIndices arrayDegrees arrayNeighbours : List Int)
    (h : OffsetsConsistent (marshalled arrayIndices arrayDegrees arrayNeighbours))
    (hlen : arrayIndices.length ≤ arrayDegrees.length)
    (hdeg : ∀ d ∈ arrayDegrees.take arrayIndices.length, 0 ≤ d)
    (i k : Nat) (hik : i + k < arrayIndices.length) :
    arrayIndices.getD i 0 ≤ arrayIndices.getD (i + k) 0 ∧ 0 ≤ arrayDegrees.getD (i + k) 0 := by
  have hnonneg : ∀ m, m < arrayIndices.length → 0 ≤ arrayDegrees.getD m 0 := by
    intro m hm
    apply hdeg
    have hm2 : m < arrayDegrees.length := by omega
    rw [List.getD_eq_getElem?_getD, List.getElem?_eq_getElem hm2]
    simp only [Option.getD_some]
    rw [List.mem_take_iff_getElem]
    exact ⟨m, by omega, rfl⟩
  induction k with
  | zero => exact ⟨le_refl _, hnonneg i (by omega)⟩
  | succ k ih =>
    have ih1 := ih (by omega)
    have hs := offsets_step arrayIndices arrayDegrees arrayNeighbours h hlen (i + k) (by omega)
    refine ⟨?_, hnonneg _ hik⟩
    have : i + (k + 1) = i + k + 1 := by omega
    rw [this, hs]
    omega

/-- The bounds of the neighbour blocks of a marshalled graph, from the recurrence
on the offsets and the four extra facts about the arrays. -/
theorem marshalled_blocks_inside (arrayIndices arrayDegrees arrayNeighbours : List Int)
    (h : OffsetsConsistent (marshalled arrayIndices arrayDegrees arrayNeighbours))
    (hlen : arrayIndices.length ≤ arrayDegrees.length)
    (hfirst : 0 ≤ arrayIndices.headD 0)
    (hdeg : ∀ d ∈ arrayDegrees.take arrayIndices.length, 0 ≤ d)
    (hlast : arrayIndices.getD (arrayIndices.length - 1) 0 +
      arrayDegrees.getD (arrayIndices.length - 1) 0 ≤ arrayNeighbours.length) :
    BlocksInside (marshalled arrayIndices arrayDegrees arrayNeighbours) := by
  refine ⟨by simpa [marshalled] using hlen, by simp [marshalled], ?_⟩
  intro i hi o d ho hd j hj
  simp only [marshalled] at hi ho hd ⊢
  rw [readAt_map_some] at ho hd
  have hi2 : i < arrayDegrees.length := by omega
  have ho2 : o = arrayIndices.getD i 0 := by
    rw [List.getD_eq_getElem?_getD, ho]; rfl
  have hd2 : d = arrayDegrees.getD i 0 := by
    rw [List.getD_eq_getElem?_getD, hd]; rfl
  have hmono := offsets_mono arrayIndices arrayDegrees arrayNeighbours h hlen hdeg
  -- the first offset is below every offset
  have h0 := (hmono 0 i (by omega)).1
  rw [Nat.zero_add] at h0
  have hhead : arrayIndices.getD 0 0 = arrayIndices.headD 0 := by
    cases arrayIndices <;> rfl
  -- every block ends before the last block does
  have hend : arrayIndices.getD i 0 + arrayDegrees.getD i 0 ≤
      arrayIndices.getD (arrayIndices.length - 1) 0 +
        arrayDegrees.getD (arrayIndices.length - 1) 0 := by
    by_cases hlastv : i = arrayIndices.length - 1
    · rw [← hlastv]
    · have hs := offsets_step arrayIndices arrayDegrees arrayNeighbours h hlen i (by omega)
      have hm := hmono (i + 1) (arrayIndices.length - 1 - (i + 1)) (by omega)
      have e : i + 1 + (arrayIndices.length - 1 - (i + 1)) = arrayIndices.length - 1 := by
        omega
      rw [e] at hm
      omega
  omega

theorem readAt_map_size_t (l : List Int) (i : Nat) :
    readAt (l.map fun x => some (size_t x)) (i : Int) = (l[i]?).map size_t := by
  unfold readAt
  by_cases h : i < l.length
  · simp [h]
  · have h1 : l[i]? = none := List.getElem?_eq_none (by omega)
    simp [h1]

/-- Storing the offsets as `size_t` keeps the blocks inside: an offset of a block
that has a position is not negative, and a `size_t` holds no more than it was
given. -/
theorem passed_blocks_inside (arrayIndices arrayDegrees arrayNeighbours : List Int)
    (h : BlocksInside (marshalled arrayIndices arrayDegrees arrayNeighbours)) :
    BlocksInside (passed arrayIndices arrayDegrees arrayNeighbours) := by
  obtain ⟨h1, h2, h3⟩ := h
  refine ⟨h1, h2, ?_⟩
  intro i hi o' d ho' hd j hj
  simp only [passed] at ho' hd ⊢
  rw [readAt_map_size_t] at ho'
  cases hidx : arrayIndices[i]? with
  | none => rw [hidx] at ho'; cases ho'
  | some o =>
    rw [hidx] at ho'
    have ho : readAt (marshalled arrayIndices arrayDegrees arrayNeighbours).v i = some o := by
      simp only [marshalled]
      rw [readAt_map_some, hidx]
    have hj0 := h3 i hi o d ho hd 0 (by omega)
    have hjj := h3 i hi o d ho hd j hj
    simp only [marshalled] at hj0 hjj
    have ho'' : o' = o % 2 ^ 64 := by
      simp only [Option.map_some', Option.some.injEq, size_t] at ho'
      exact ho'.symm
    have hnn : 0 ≤ o := by simpa using hj0.1
    have hge : 0 ≤ o % 2 ^ 64 := Int.emod_nonneg o (by norm_num)
    have hle : o % 2 ^ 64 ≤ o := by
      by_cases hlt : o < 2 ^ 64
      · rw [Int.emod_eq_of_lt hnn hlt]
      · have := Int.emod_lt_of_pos o (by norm_num : (0 : Int) < 2 ^ 64)
        omega
    subst ho''
    exact ⟨by omega, by omega⟩

/-- C9, the claim refuted at four concrete inputs, each of which satisfies the
preconditions as the spec states them.
* `indices = [2,3]`, `degrees = [1,1]`, `neighbours = [1,0]`: the only instance of
  the recurrence is `3 = 2 + 1`, both entries of `neighbours` are below 2, no
  vertex has a neighbour (its block lies past the end of the array); position
  `offsets[0] + 0 = 2` is not below `nde = 2`.
* `indices = [0]`, `degrees = []`, `neighbours = []`: `degrees` has no entry for
  the one vertex.
* `indices = [-1,0]`, `degrees = [1,1]`, `neighbours = [1,0]`: position
  `offsets[0] + 0 = -1` is negative (the engine finds `2^64 - 1` in `v[0]`).
* `indices = [0,3,1]`, `degrees = [3,-2,1]`, `neighbours = [2,0]`: position
  `offsets[0] + 2 = 2` is not below `nde = 2`. -/
theorem preconditions_do_not_bound_blocks :
    (SpecPreconditions (marshalled [2, 3] [1, 1] [1, 0]) ∧
      ∀ (N : Nauty) (st : Statics N.OtherOptions) (gcode : Gcode),
        ∀ c ∈ (Java_Binding_sparseNauty N st gcode [2, 3] [1, 1] [1, 0] 0 1 0).engineCalls,
          ¬ BlocksInside c.g) ∧
    (SpecPreconditions (marshalled [0] [] []) ∧
      ∀ (N : Nauty) (st : Statics N.OtherOptions) (gcode : Gcode),
        ∀ c ∈ (Java_Binding_sparseNauty N st gcode [0] [] [] 0 1 0).engineCalls,
          ¬ BlocksInside c.g) ∧
    (SpecPreconditions (marshalled [-1, 0] [1, 1] [1, 0]) ∧
      ∀ (N : Nauty) (st : Statics N.OtherOptions) (gcode : Gcode),
        ∀ c ∈ (Java_Binding_sparseNauty N st gcode [-1, 0] [1, 1] [1, 0] 0 1 0).engineCalls,
          ¬ BlocksInside c.g) ∧
    (SpecPreconditions (marshalled [0, 3, 1] [3, -2, 1] [2, 0]) ∧
      ∀ (N : Nauty) (st : Statics N.OtherOptions) (gcode : Gcode),
        ∀ c ∈ (Java_Binding_sparseNauty N st gcode [0, 3, 1] [3, -2, 1] [2, 0] 0 1 0).engineCalls,
          ¬ BlocksInside c.g) := by
  refine ⟨⟨by decide, fun N st gcode c hc => ?_⟩, ⟨by decide, fun N st gcode c hc => ?_⟩,
    ⟨by decide, fun N st gcode c hc => ?_⟩, ⟨by decide, fun N st gcode c hc => ?_⟩⟩
  · rw [engineCalls_eq, List.mem_singleton] at hc
    subst hc
    intro (hb : BlocksInside (passed [2, 3] [1, 1] [1, 0]))
    have h := (hb.2.2 0 (by decide) 2 1 (by decide) (by decide) 0 (by decide)).2
    simp [passed] at h
  · rw [engineCalls_eq, List.mem_singleton] at hc
    subst hc
    intro (hb : BlocksInside (passed [0] [] []))
    have h := hb.1
    simp [passed] at h
  · rw [engineCalls_eq, List.mem_singleton] at hc
    subst hc
    intro (hb : BlocksInside (passed [-1, 0] [1, 1] [1, 0]))
    have h := (hb.2.2 0 (by decide) 18446744073709551615 1 (by decide) (by decide) 0
      (by decide)).2
    simp [passed] at h
  · rw [engineCalls_eq, List.mem_singleton] at hc
    subst hc
    intro (hb : BlocksInside (passed [0, 3, 1] [3, -2, 1] [2, 0]))
    have h := (hb.2.2 0 (by decide) 0 3 (by decide) (by decide) 2 (by decide)).2
    simp [passed] at h

/-- C9, as amended.  For every input that satisfies the preconditions of the spec
and, in addition, has an entry of `degrees` for every vertex, a first offset that
is not negative, no negative degree among the first `order` entries, and a last
block that ends inside `neighbours` (`offsets[order-1] + degree[order-1] ≤
length(neighbours)`): in the graph the binding hands to the engine, `d` has a cell
for every vertex, `e` has exactly `nde` cells, and every position `v[i] + j` with
`i < nv` and `0 ≤ j < d[i]` satisfies `0 ≤ v[i] + j < nde`. -/
theorem blocks_inside_under_strengthened_preconditions (N : Nauty)
    (st : Statics N.OtherOptions) (gcode : Gcode)
    (arrayIndices arrayDegrees arrayNeighbours : List Int)
    (mininvarlevel maxinvarlevel invararg : Int)
    (hpre : SpecPreconditions (marshalled arrayIndices arrayDegrees arrayNeighbours))
    (hlen : arrayIndices.length ≤ arrayDegrees.length)
    (hfirst : 0 ≤ arrayIndices.headD 0)
    (hdeg : ∀ d ∈ arrayDegrees.take arrayIndices.length, 0 ≤ d)
    (hlast : arrayIndices.getD (arrayIndices.length - 1) 0 +
      arrayDegrees.getD (arrayIndices.length - 1) 0 ≤ arrayNeighbours.length) :
    ∀ c ∈ (Java_Binding_sparseNauty N st gcode arrayIndices arrayDegrees arrayNeighbours
        mininvarlevel maxinvarlevel invararg).engineCalls, BlocksInside c.g := by
  intro c hc
  rw [engineCalls_eq, List.mem_singleton] at hc
  subst hc
  exact passed_blocks_inside arrayIndices arrayDegrees arrayNeighbours
    (marshalled_blocks_inside arrayIndices arrayDegrees arrayNeighbours hpre.1 hlen hfirst
      hdeg hlast)

/-- C9, the amended statement at the path `0-1, 1-2`: its hypotheses hold there. -/
theorem blocks_inside_path_witness :
    SpecPreconditions (marshalled [0, 1, 3] [1, 2, 1] [1, 0, 2, 1]) ∧
    ∀ (N : Nauty) (st : Statics N.OtherOptions) (gcode : Gcode),
      ∀ c ∈ (Java_Binding_sparseNauty N st gcode [0, 1, 3] [1, 2, 1] [1, 0, 2, 1]
          0 1 0).engineCalls,
        BlocksInside c.g :=
  ⟨by decide, fun N st gcode =>
    blocks_inside_under_strengthened_preconditions N st gcode [0, 1, 3] [1, 2, 1] [1, 0, 2, 1]
      0 1 0 (by decide) (by decide) (by decide) (by decide) (by decide)⟩

/-! ## The benchmark driver -/

/-- The two loops of `main` run to their end without leaving an array, and end in
the state `filled`. -/
theorem buildGraph_eq : buildGraph = some filled := by
  decide

/-- The run of `main`: it reaches line 45 and hands the graph of `filled`, which
the library can read, to the engine. -/
theorem main_eq (N : Nauty) :
    main N = some
      { engineCall :=
          { g := filled.sg
            lab := DYNALLOC1 [] 16
            ptn := DYNALLOC1 [] 16
            orbits := DYNALLOC1 [] 16
            options := { N.DEFAULTOPTIONS_SPARSEGRAPH with getcanon := true } }
        printed := N.sgtos6 filled.sg ++ "\n"
        filled := filled } := by
  unfold main
  rw [buildGraph_eq]
  simp only [Option.some_bind]
  rw [if_pos (by decide)]

/-- C8.  `main` reaches its call of `sparsenauty`, and the graph it passes has
`nv = 16`, `nde = 48`, blocks of 16, 16 and 48 assigned cells, `v[i] = 3*i` and
`d[i] = 3` for every `i < 16` (so `v[i+1] = v[i] + d[i]` for `i < 15`), every entry
of `e` in `0..15`, symmetric adjacency, no self-loop, and three distinct
neighbours in every block. -/
theorem benchmark_graph_satisfies_invariants (N : Nauty) :
    ∃ r, main N = some r ∧
      r.engineCall.g.nv = 16 ∧ r.engineCall.g.nde = 48 ∧
      r.engineCall.g.v.length = 16 ∧ r.engineCall.g.d.length = 16 ∧
      r.engineCall.g.e.length = 48 ∧
      (∀ i : Nat, i < 16 → r.engineCall.g.v[i]? = some (some (3 * (i : Int))) ∧
        r.engineCall.g.d[i]? = some (some 3)) ∧
      OffsetsConsistent r.engineCall.g ∧
      NeighboursInRange r.engineCall.g ∧
      Symmetric r.engineCall.g ∧
      (∀ u : Nat, u < 16 → some (u : Int) ∉ blockOf r.engineCall.g u) ∧
      (∀ u : Nat, u < 16 → (blockOf r.engineCall.g u).length = 3 ∧
        (blockOf r.engineCall.g u).Nodup) := by
  refine ⟨_, main_eq N, ?_⟩
  show filled.sg.nv = 16 ∧ filled.sg.nde = 48 ∧
      filled.sg.v.length = 16 ∧ filled.sg.d.length = 16 ∧
      filled.sg.e.length = 48 ∧
      (∀ i : Nat, i < 16 → filled.sg.v[i]? = some (some (3 * (i : Int))) ∧
        filled.sg.d[i]? = some (some 3)) ∧
      OffsetsConsistent filled.sg ∧
      NeighboursInRange filled.sg ∧
      Symmetric filled.sg ∧
      (∀ u : Nat, u < 16 → some (u : Int) ∉ blockOf filled.sg u) ∧
      (∀ u : Nat, u < 16 → (blockOf filled.sg u).length = 3 ∧ (blockOf filled.sg u).Nodup)
  decide

/-- C10.  `main` runs its second loop to the end without leaving an array.  The
loop makes 48 assignments `sg.e[indices[x]] = y`; at each of them the cursor
satisfies `3*x ≤ indices[x] < 3*x + 3` and `0 ≤ indices[x] < 48`; when the loop
ends `indices[x] = 3*x + 3` for every `x < 16`; every one of the 48 cells of `sg.e`
is the target of exactly one assignment, holds the value of that assignment, and
none is left unassigned. -/
theorem fill_loop_stays_inside_blocks (N : Nauty) :
    ∃ r, main N = some r ∧
      r.engineCall.g = r.filled.sg ∧
      r.filled.writes.length = 48 ∧
      (∀ w ∈ r.filled.writes,
        3 * w.vertex ≤ w.slot ∧ w.slot < 3 * w.vertex + 3 ∧ 0 ≤ w.slot ∧ w.slot < 48) ∧
      (∀ x : Nat, x < 16 → r.filled.indices[x]? = some (some (3 * (x : Int) + 3))) ∧
      (∀ k : Nat, k < 48 → (r.filled.writes.map fun w => w.slot).count (k : Int) = 1) ∧
      (∀ w ∈ r.filled.writes, readAt r.filled.sg.e w.slot = some w.value) ∧
      r.filled.sg.e.length = 48 ∧
      (∀ c ∈ r.filled.sg.e, c ≠ none) := by
  refine ⟨_, main_eq N, rfl, ?_⟩
  show filled.writes.length = 48 ∧
      (∀ w ∈ filled.writes,
        3 * w.vertex ≤ w.slot ∧ w.slot < 3 * w.vertex + 3 ∧ 0 ≤ w.slot ∧ w.slot < 48) ∧
      (∀ x : Nat, x < 16 → filled.indices[x]? = some (some (3 * (x : Int) + 3))) ∧
      (∀ k : Nat, k < 48 → (filled.writes.map fun w => w.slot).count (k : Int) = 1) ∧
      (∀ w ∈ filled.writes, readAt filled.sg.e w.slot = some w.value) ∧
      filled.sg.e.length = 48 ∧
      (∀ c ∈ filled.sg.e, c ≠ none)
  decide

end DiscreteZOO
